import Mathlib

/-!
Shallow embedding of `src/vector/include/vector.hpp` (`vector_t<T>`).

The C++ class manages a raw buffer (obtained from `std::allocator<T>`), a live
count `_size` and a slot count `_capacity`.  We model the allocator as an
explicit heap: every successful `allocate(n)` returns a fresh region id
(mainstream `operator new` behaviour: the returned pointer is non-null and
distinct from every live pointer, including for `n = 0`) mapped to `n`
uninitialized slots.  A slot is `Option α`: `none` is uninitialized (or
destroyed) storage, `some x` is a live value `x`.  `fuel` makes allocation
failure (`std::bad_alloc`) expressible: `some k` means the `k`-th next
allocation request fails, `none` means allocation never fails.
`nAlloc`/`nDealloc` count allocator traffic (the "allocation-tracking test
allocator" of the specification).

Fallible operations return `Except e a` where the `error` payload is the
state observable by the caller when the exception escapes (for member
functions: the receiver object as partially mutated so far, and the heap).
-/

set_option linter.unusedVariables false

structure Heap (α : Type) where
  next : Nat
  mem : Nat → Option (List (Option α))
  fuel : Option Nat
  nAlloc : Nat
  nDealloc : Nat

variable {α : Type}

/-- The heap of a fresh program run: nothing allocated yet. -/
def initHeap (α : Type) (fuel : Option Nat) : Heap α :=
  { next := 0, mem := fun _ => none, fuel := fuel, nAlloc := 0, nDealloc := 0 }

/-- `_allocator.allocate n`: returns a fresh region of `n` uninitialized
slots, or fails (`std::bad_alloc`) when the fuel is exhausted. -/
def allocate (n : Nat) (h : Heap α) : Option (Nat × Heap α) :=
  match h.fuel with
  | some 0 => none
  | some (k + 1) =>
      some (h.next,
        { next := h.next + 1,
          mem := fun r => if r = h.next then some (List.replicate n none) else h.mem r,
          fuel := some k, nAlloc := h.nAlloc + 1, nDealloc := h.nDealloc })
  | none =>
      some (h.next,
        { next := h.next + 1,
          mem := fun r => if r = h.next then some (List.replicate n none) else h.mem r,
          fuel := none, nAlloc := h.nAlloc + 1, nDealloc := h.nDealloc })

/-- `_allocator.deallocate(p, n)`: returns the region to the system.  The
source passes `_data` (possibly null) and `_capacity`; `operator delete` on a
null pointer does nothing and releases nothing. -/
def deallocD (d : Option Nat) (n : Nat) (h : Heap α) : Heap α :=
  match d with
  | none => h
  | some r =>
      { h with mem := fun x => if x = r then none else h.mem x,
               nDealloc := h.nDealloc + 1 }

/-- Store slot content `s` at `p + i` where `p` is a possibly-null pointer
`d`.  Writing through a null pointer or past the region is undefined
behaviour in C++; the model makes it a silent no-op so that every run is
total (no claim relies on the value of such a write). -/
def Heap.writeSlot (h : Heap α) (d : Option Nat) (i : Nat) (s : Option α) : Heap α :=
  match d with
  | none => h
  | some r =>
      { h with mem := fun x => if x = r then (h.mem r).map (fun l => l.set i s) else h.mem x }

/-- Read the slot content at `p + i`.  Reads through null, out of range, or
of a deallocated region yield `none` (an unspecified/garbage value in C++). -/
def Heap.readSlot (h : Heap α) (d : Option Nat) (i : Nat) : Option α :=
  match d with
  | none => none
  | some r => ((h.mem r).bind (fun l => l[i]?)).join

/-- A loop `for (j = i; j < i + n; ++j) construct_at(dst + j, src[j])` (also
used for the move-construct loop of `reserve`: moving copies the value, the
moved-from slot stays alive until it is destroyed). -/
def copyRange (src dst : Option Nat) : Nat → Nat → Heap α → Heap α
  | _, 0, h => h
  | i, n + 1, h => copyRange src dst (i + 1) n (h.writeSlot dst i (h.readSlot src i))

/-- A loop storing the constant slot content `s` at `dst + i, …, dst + i+n-1`:
with `s = none` this is `std::destroy_n`/`std::destroy`, with
`s = some default` it is the default-construction loops. -/
def storeRange (dst : Option Nat) (s : Option α) : Nat → Nat → Heap α → Heap α
  | _, 0, h => h
  | i, n + 1, h => storeRange dst s (i + 1) n (h.writeSlot dst i s)

/-- Pure mirror of `copyRange` on the destination region's contents, used to
state its effect (`ls` is the source region's contents). -/
def copyPure (ls : List (Option α)) : List (Option α) → Nat → Nat → List (Option α)
  | ld, _, 0 => ld
  | ld, i, n + 1 => copyPure ls (ld.set i (ls[i]?).join) (i + 1) n

/-- Pure mirror of `storeRange` on the region's contents. -/
def storePure (s : Option α) : List (Option α) → Nat → Nat → List (Option α)
  | l, _, 0 => l
  | l, i, n + 1 => storePure s (l.set i s) (i + 1) n

/-- `vector_t<T>`: `_data` is the buffer pointer (null or a region id),
`_size` the number of live values, `_capacity` the slot count of the buffer
(vector.hpp lines 133-148). -/
structure vector_t (α : Type) where
  _data : Option Nat
  _size : Nat
  _capacity : Nat
deriving DecidableEq, Repr

/-- Default constructor (line 152): empty vector, no buffer. -/
def mk0 (α : Type) : vector_t α :=
  { _data := none, _size := 0, _capacity := 0 }

/-- `size()` (line 226). -/
def vector_t.size (v : vector_t α) : Nat := v._size

/-- `operator[]` read (lines 229-232). -/
def readElem (h : Heap α) (v : vector_t α) (i : Nat) : Option α :=
  h.readSlot v._data i

/-- `operator[]` write: `v[i] = x`. -/
def writeElem (h : Heap α) (v : vector_t α) (i : Nat) (x : α) : Heap α :=
  h.writeSlot v._data i (some x)

/-- All element reads over the live range `[0, _size)` in order. -/
def readAll (h : Heap α) (v : vector_t α) : List (Option α) :=
  (List.range v._size).map (readElem h v)

/-- Sized constructor (lines 161-168): allocate `s` slots, default-construct
each of them; `_size = _capacity = s`.  Note that `allocate` is called even
for `s = 0`. -/
def mkSized [Inhabited α] (s : Nat) (h : Heap α) : Except (Heap α) (vector_t α × Heap α) :=
  match allocate s h with
  | none => .error h
  | some (nb, h1) =>
      let h2 := storeRange (some nb) (some (default : α)) 0 s h1
      .ok ({ _data := some nb, _size := s, _capacity := s }, h2)

/-- Copy constructor (lines 171-176): allocate `other._capacity` slots (even
when it is 0) and copy-construct `other`'s live range into them. -/
def copyCtor (other : vector_t α) (h : Heap α) : Except (Heap α) (vector_t α × Heap α) :=
  match allocate other._capacity h with
  | none => .error h
  | some (nb, h1) =>
      let h2 := copyRange other._data (some nb) 0 other._size h1
      .ok ({ _data := some nb, _size := other._size, _capacity := other._capacity }, h2)

/-- Move constructor (lines 179-184).  Line 180 `_data = _allocator.allocate(_capacity)`
allocates a buffer that line 181 `_data = other._data` immediately abandons;
the source is then drained (`other._data = nullptr; other._size = 0`, its
`_capacity` is left untouched).  Returns (new object, source afterwards). -/
def moveCtor (other : vector_t α) (h : Heap α) :
    Except (Heap α) ((vector_t α × vector_t α) × Heap α) :=
  match allocate other._capacity h with
  | none => .error h
  | some (nb, h1) =>
      .ok (({ _data := other._data, _size := other._size, _capacity := other._capacity },
            { other with _data := none, _size := 0 }), h1)

/-- Copy assignment (lines 187-198) for two distinct objects, in source
order: `_size = other._size; _capacity = other._capacity;`, then
`_data = _allocator.allocate(_capacity)` (the previous buffer handle is
overwritten without destroying its live values or deallocating it), then the
copy-construct loop.  On `bad_alloc` the exception escapes after `_size` and
`_capacity` were already overwritten.  Returns the receiver afterwards
(`other` is untouched). -/
def copyAssign (self other : vector_t α) (h : Heap α) :
    Except (vector_t α × Heap α) (vector_t α × Heap α) :=
  let self1 := { self with _size := other._size, _capacity := other._capacity }
  match allocate self1._capacity h with
  | none => .error (self1, h)
  | some (nb, h1) =>
      let h2 := copyRange other._data (some nb) 0 self1._size h1
      .ok ({ self1 with _data := some nb }, h2)

/-- Copy assignment executed with `&other == this` (`v = v`).  The two field
copies are no-ops; `_data = _allocator.allocate(_capacity)` redirects both
`this->_data` and `other._data` to the fresh uninitialized buffer (the old
buffer is abandoned undestroyed), and the loop
`construct_at(_data + i, *(other._data + i))` then reads the fresh buffer's
own uninitialized slots. -/
def copyAssignSelf (self : vector_t α) (h : Heap α) :
    Except (vector_t α × Heap α) (vector_t α × Heap α) :=
  match allocate self._capacity h with
  | none => .error (self, h)
  | some (nb, h1) =>
      let h2 := copyRange (some nb) (some nb) 0 self._size h1
      .ok ({ self with _data := some nb }, h2)

/-- Move assignment (lines 201-211) for two distinct objects:
`_size = other.size(); _capacity = other._capacity;`, a fresh allocation that
is immediately abandoned by `_data = other._data` (and the receiver's old
buffer is likewise abandoned), then the source is drained.  Returns
(receiver afterwards, source afterwards). -/
def moveAssign (self other : vector_t α) (h : Heap α) :
    Except ((vector_t α × vector_t α) × Heap α) ((vector_t α × vector_t α) × Heap α) :=
  let self1 := { self with _size := other.size, _capacity := other._capacity }
  match allocate self1._capacity h with
  | none => .error ((self1, other), h)
  | some (nb, h1) =>
      .ok (({ self1 with _data := other._data },
            { other with _data := none, _size := 0 }), h1)

/-- Move assignment executed with `&other == this` (`v = std::move(v)`).
After `_data = _allocator.allocate(_capacity)` the handle `other._data`
(same object) denotes the fresh buffer, so `_data = other._data` keeps it;
`other._data = nullptr` and `other._size = 0` then null out this very
object.  Both the old buffer and the fresh one are abandoned. -/
def moveAssignSelf (self : vector_t α) (h : Heap α) :
    Except (vector_t α × Heap α) (vector_t α × Heap α) :=
  match allocate self._capacity h with
  | none => .error (self, h)
  | some (nb, h1) =>
      .ok ({ self with _data := none, _size := 0 }, h1)

/-- `reserve` (lines 269-288).  First branch (`new_capacity < _size`): the
source calls `resize(_size)` and then sets `_capacity = _size`;
`resize(_size)` re-assigns `_size` to its current value and does nothing
else (both of its conditionals are skipped since its argument equals
`_size`), so the branch is inlined accordingly (validated by
`resize_size_self` below).  Second branch (`new_capacity > _capacity`):
allocate the new buffer, move-construct the live range into it, destroy the
old live range, deallocate the old buffer, adopt buffer and capacity.
Otherwise: no-op. -/
def reserve (v : vector_t α) (nc : Nat) (h : Heap α) :
    Except (vector_t α × Heap α) (vector_t α × Heap α) :=
  if nc < v._size then
    .ok ({ v with _size := v._size, _capacity := v._size }, h)
  else if nc > v._capacity then
    match allocate nc h with
    | none => .error (v, h)
    | some (nb, h1) =>
        let h2 := copyRange v._data (some nb) 0 v._size h1
        let h3 := storeRange v._data none 0 v._size h2
        let h4 := deallocD v._data v._capacity h3
        .ok ({ v with _data := some nb, _capacity := nc }, h4)
  else
    .ok (v, h)

/-- `resize` (lines 293-309): grow path reserves if needed then
default-constructs `[_size, new_size)`; shrink path destroys
`[new_size, _size)`; finally `_size = new_size`. -/
def resize [Inhabited α] (v : vector_t α) (ns : Nat) (h : Heap α) :
    Except (vector_t α × Heap α) (vector_t α × Heap α) :=
  if ns > v._size then
    match (if ns > v._capacity then reserve v ns h else .ok (v, h)) with
    | .error e => .error e
    | .ok (v1, h1) =>
        let h2 := storeRange v1._data (some (default : α)) v1._size (ns - v1._size) h1
        .ok ({ v1 with _size := ns }, h2)
  else
    let h2 := if ns < v._size then storeRange v._data none ns (v._size - ns) h else h
    .ok ({ v with _size := ns }, h2)

/-- `emplace_back` (lines 243-254), instantiated at one forwarded value:
grow by doubling when full, reserve 16 when the capacity is 0, then
`construct_at(end(), …)` and `_size++`. -/
def emplace_back (v : vector_t α) (x : α) (h : Heap α) :
    Except (vector_t α × Heap α) (vector_t α × Heap α) :=
  match (if v._size = v._capacity then reserve v (2 * v._capacity) h else .ok (v, h)) with
  | .error e => .error e
  | .ok (v1, h1) =>
      match (if v1._capacity = 0 then reserve v1 16 h1 else .ok (v1, h1)) with
      | .error e => .error e
      | .ok (v2, h2) =>
          let h3 := h2.writeSlot v2._data v2._size (some x)
          .ok ({ v2 with _size := v2._size + 1 }, h3)

/-- Destructor (lines 313-321): if `_data` is non-null, destroy the live
range and deallocate the buffer; otherwise do nothing. -/
def dtor (v : vector_t α) (h : Heap α) : Heap α :=
  match v._data with
  | none => h
  | some r =>
      let h1 := storeRange (some r) none 0 v._size h
      deallocD (some r) v._capacity h1

/-- Driver for the claims that quantify over call sequences: perform the
`emplace_back` calls of `xs` left to right. -/
def emplaceAll (xs : List α) (v : vector_t α) (h : Heap α) :
    Except (vector_t α × Heap α) (vector_t α × Heap α) :=
  match xs with
  | [] => .ok (v, h)
  | x :: rest =>
      match emplace_back v x h with
      | .error e => .error e
      | .ok (v1, h1) => emplaceAll rest v1 h1

/-- The growth schedule stated by the specification, one `emplace_back` step:
from `size = s`, `capacity = c`, the capacity after the insertion is `c`
unless the insertion found `s = c`, in which case it becomes 16 (from 0) or
doubles. -/
def specCapStep (s c : Nat) : Nat :=
  if s = c then (if c = 0 then 16 else 2 * c) else c

/-- Capacity after `n` insertions into an initially empty vector, per the
specification's schedule. -/
def specCapAfter : Nat → Nat
  | 0 => 0
  | n + 1 => specCapStep n (specCapAfter n)

/-- Values held after `resize ns` on a vector holding `vals` (specification
wording: keep the first `ns` values, default-construct the rest). -/
def resizedVals [Inhabited α] (vals : List α) (ns : Nat) : List α :=
  vals.take ns ++ List.replicate (ns - vals.length) (default : α)

/-- The well-formedness relation tying a vector to the heap and to the list
`vals` of its live values: unexhaustible allocator, live count = `vals`,
and, unless the buffer is null (in which case the capacity is 0), the buffer
is an allocated region of exactly `_capacity` slots whose live prefix holds
`vals` followed by uninitialized slots. -/
@[reducible] def VecInv (v : vector_t α) (h : Heap α) (vals : List α) : Prop :=
  h.fuel = none ∧
  v._size = vals.length ∧
  vals.length ≤ v._capacity ∧
  match v._data with
  | none => v._capacity = 0
  | some r =>
      r < h.next ∧
      h.mem r = some (vals.map some ++ List.replicate (v._capacity - vals.length) none)

/-- Two vectors do not share a (non-null) buffer. -/
@[reducible] def Separated (a b : vector_t α) : Prop :=
  a._data = none ∨ b._data = none ∨ a._data ≠ b._data

/-- Writes through `a` are invisible through `b`. -/
def Independent (h : Heap α) (a b : vector_t α) : Prop :=
  ∀ i x j, readElem (writeElem h a i x) b j = readElem h b j

/-- Frame facts of a member-function call on `v`: region ids stay monotone,
regions other than `v`'s own buffer are untouched, the resulting buffer is
either the old one or a freshly allocated one, and the fuel is preserved. -/
def Frames (v : vector_t α) (h : Heap α) (v' : vector_t α) (h' : Heap α) : Prop :=
  h.next ≤ h'.next ∧
  (∀ r, r < h.next → v._data ≠ some r → h'.mem r = h.mem r) ∧
  (∀ r, v'._data = some r → v._data = some r ∨ h.next ≤ r) ∧
  h'.fuel = h.fuel

/-! ### Basic facts about the heap primitives -/

theorem writeSlot_none_eq (h : Heap α) (i : Nat) (s : Option α) :
    h.writeSlot none i s = h := rfl

theorem writeSlot_mem_self (h : Heap α) (r i : Nat) (s : Option α) :
    (h.writeSlot (some r) i s).mem r = (h.mem r).map (fun l => l.set i s) := by
  simp [Heap.writeSlot]

theorem writeSlot_mem_ne (h : Heap α) (r i : Nat) (s : Option α) (x : Nat) (hx : x ≠ r) :
    (h.writeSlot (some r) i s).mem x = h.mem x := by
  simp [Heap.writeSlot, hx]

theorem writeSlot_next (h : Heap α) (d : Option Nat) (i : Nat) (s : Option α) :
    (h.writeSlot d i s).next = h.next := by
  cases d <;> rfl

theorem writeSlot_fuel (h : Heap α) (d : Option Nat) (i : Nat) (s : Option α) :
    (h.writeSlot d i s).fuel = h.fuel := by
  cases d <;> rfl

theorem writeSlot_nAlloc (h : Heap α) (d : Option Nat) (i : Nat) (s : Option α) :
    (h.writeSlot d i s).nAlloc = h.nAlloc := by
  cases d <;> rfl

theorem writeSlot_nDealloc (h : Heap α) (d : Option Nat) (i : Nat) (s : Option α) :
    (h.writeSlot d i s).nDealloc = h.nDealloc := by
  cases d <;> rfl

theorem readSlot_eq (h : Heap α) (r i : Nat) (l : List (Option α)) (hm : h.mem r = some l) :
    h.readSlot (some r) i = (l[i]?).join := by
  simp [Heap.readSlot, hm]

theorem allocate_fuel_none (n : Nat) (h : Heap α) (hf : h.fuel = none) :
    allocate n h = some (h.next,
      { next := h.next + 1,
        mem := fun r => if r = h.next then some (List.replicate n none) else h.mem r,
        fuel := none, nAlloc := h.nAlloc + 1, nDealloc := h.nDealloc }) := by
  simp [allocate, hf]

/-! ### Effect of the construction/destruction loops on the heap -/

theorem storeRange_none_eq (s : Option α) :
    ∀ (n i : Nat) (h : Heap α), storeRange none s i n h = h := by
  intro n
  induction n with
  | zero => intro i h; rfl
  | succ n ih => intro i h; simpa [storeRange, writeSlot_none_eq] using ih (i + 1) h

theorem storeRange_spec (r : Nat) (s : Option α) :
    ∀ (n i : Nat) (h : Heap α) (l : List (Option α)), h.mem r = some l →
      (storeRange (some r) s i n h).mem r = some (storePure s l i n) ∧
      (∀ x, x ≠ r → (storeRange (some r) s i n h).mem x = h.mem x) ∧
      (storeRange (some r) s i n h).next = h.next ∧
      (storeRange (some r) s i n h).fuel = h.fuel ∧
      (storeRange (some r) s i n h).nAlloc = h.nAlloc ∧
      (storeRange (some r) s i n h).nDealloc = h.nDealloc := by
  intro n
  induction n with
  | zero => intro i h l hm; simp [storeRange, storePure, hm]
  | succ n ih =>
      intro i h l hm
      have hw : (h.writeSlot (some r) i s).mem r = some (l.set i s) := by
        rw [writeSlot_mem_self, hm]; rfl
      obtain ⟨m1, m2, m3, m4, m5, m6⟩ := ih (i + 1) (h.writeSlot (some r) i s) (l.set i s) hw
      refine ⟨?_, ?_, ?_, ?_, ?_, ?_⟩
      · simpa [storeRange, storePure] using m1
      · intro x hx
        simpa [storeRange, writeSlot_mem_ne h r i s x hx] using m2 x hx
      · simpa [storeRange, writeSlot_next] using m3
      · simpa [storeRange, writeSlot_fuel] using m4
      · simpa [storeRange, writeSlot_nAlloc] using m5
      · simpa [storeRange, writeSlot_nDealloc] using m6

theorem copyRange_spec (rs rd : Nat) (hne : rs ≠ rd) :
    ∀ (n i : Nat) (h : Heap α) (ls ld : List (Option α)),
      h.mem rs = some ls → h.mem rd = some ld →
      (copyRange (some rs) (some rd) i n h).mem rd = some (copyPure ls ld i n) ∧
      (∀ x, x ≠ rd → (copyRange (some rs) (some rd) i n h).mem x = h.mem x) ∧
      (copyRange (some rs) (some rd) i n h).next = h.next ∧
      (copyRange (some rs) (some rd) i n h).fuel = h.fuel ∧
      (copyRange (some rs) (some rd) i n h).nAlloc = h.nAlloc ∧
      (copyRange (some rs) (some rd) i n h).nDealloc = h.nDealloc := by
  intro n
  induction n with
  | zero => intro i h ls ld hs hd; simp [copyRange, copyPure, hd]
  | succ n ih =>
      intro i h ls ld hs hd
      have hr : h.readSlot (some rs) i = (ls[i]?).join := readSlot_eq h rs i ls hs
      have hw : (h.writeSlot (some rd) i (h.readSlot (some rs) i)).mem rd =
          some (ld.set i ((ls[i]?).join)) := by
        rw [writeSlot_mem_self, hd, hr]; rfl
      have hsrc : (h.writeSlot (some rd) i (h.readSlot (some rs) i)).mem rs = some ls := by
        rw [writeSlot_mem_ne h rd i _ rs hne]; exact hs
      obtain ⟨m1, m2, m3, m4, m5, m6⟩ :=
        ih (i + 1) (h.writeSlot (some rd) i (h.readSlot (some rs) i))
          ls (ld.set i ((ls[i]?).join)) hsrc hw
      refine ⟨?_, ?_, ?_, ?_, ?_, ?_⟩
      · simpa [copyRange, copyPure, hr] using m1
      · intro x hx
        simpa [copyRange, writeSlot_mem_ne h rd i _ x hx] using m2 x hx
      · simpa [copyRange, writeSlot_next] using m3
      · simpa [copyRange, writeSlot_fuel] using m4
      · simpa [copyRange, writeSlot_nAlloc] using m5
      · simpa [copyRange, writeSlot_nDealloc] using m6

/-! ### Pure list-level effect of the loops -/

theorem storePure_zero (s : Option α) (l : List (Option α)) (i : Nat) :
    storePure s l i 0 = l := rfl

theorem storePure_succ (s : Option α) (l : List (Option α)) (i n : Nat) :
    storePure s l i (n + 1) = storePure s (l.set i s) (i + 1) n := rfl

theorem copyPure_zero (ls ld : List (Option α)) (i : Nat) : copyPure ls ld i 0 = ld := rfl

theorem copyPure_succ (ls ld : List (Option α)) (i n : Nat) :
    copyPure ls ld i (n + 1) = copyPure ls (ld.set i ((ls[i]?).join)) (i + 1) n := rfl

theorem set_at_len {β : Type} (l1 l2 : List β) (a : β) :
    (l1 ++ l2).set l1.length a = l1 ++ l2.set 0 a := by
  simp [List.set_append]

theorem storePure_spec (s : Option α) :
    ∀ (n : Nat) (A B : List (Option α)), n ≤ B.length →
      storePure s (A ++ B) A.length n = A ++ (List.replicate n s ++ B.drop n) := by
  intro n
  induction n with
  | zero => intro A B hn; simp [storePure_zero]
  | succ n ih =>
      intro A B hn
      cases B with
      | nil => simp at hn
      | cons b B2 =>
          rw [storePure_succ, set_at_len]
          have h2 : A.length + 1 = (A ++ [s]).length := by simp
          have h3 : A ++ (b :: B2).set 0 s = (A ++ [s]) ++ B2 := by simp
          rw [h2, h3, ih (A ++ [s]) B2 (by simpa using hn)]
          simp [List.replicate_succ]

theorem storePure_spec_at (s : Option α) (n : Nat) (A B : List (Option α)) (i : Nat)
    (hi : i = A.length) (hn : n ≤ B.length) :
    storePure s (A ++ B) i n = A ++ (List.replicate n s ++ B.drop n) := by
  rw [hi]
  exact storePure_spec s n A B hn

theorem copyPure_spec :
    ∀ (vs done : List α) (m : Nat) (junk : List (Option α)), vs.length ≤ m →
      copyPure ((done ++ vs).map some ++ junk) (done.map some ++ List.replicate m none)
          done.length vs.length
        = (done ++ vs).map some ++ List.replicate (m - vs.length) none := by
  intro vs
  induction vs with
  | nil => intro done m junk h; simp [copyPure_zero]
  | cons v vs ih =>
      intro done m junk h
      cases m with
      | zero => simp at h
      | succ m2 =>
          have hlen : done.length < ((done ++ v :: vs).map some).length := by
            simp
          have hget : ((done ++ v :: vs).map some ++ junk)[done.length]? = some (some v) := by
            rw [List.getElem?_append_left hlen, List.getElem?_map,
              List.getElem?_append_right (le_refl done.length)]
            simp
          have hset : (done.map some ++ List.replicate (m2 + 1) none).set done.length (some v) =
              (done ++ [v]).map some ++ List.replicate m2 none := by
            have : done.length = (done.map some).length := by simp
            rw [this, set_at_len]
            simp [List.replicate_succ]
          have hgetj : (((done ++ v :: vs).map some ++ junk)[done.length]?).join = some v := by
            rw [hget]; rfl
          rw [List.length_cons, copyPure_succ, hgetj, hset]
          have hidx : done.length + 1 = (done ++ [v]).length := by simp
          have hls : (done ++ v :: vs).map some ++ junk =
              ((done ++ [v]) ++ vs).map some ++ junk := by simp
          have hvs : vs.length ≤ m2 := by
            simp at h; omega
          have harith : m2 + 1 - (vs.length + 1) = m2 - vs.length := by omega
          rw [hidx, hls, ih (done ++ [v]) m2 junk hvs, harith]
          simp

theorem deallocD_none_eq (n : Nat) (h : Heap α) : deallocD none n h = h := rfl

theorem deallocD_mem_ne (r n : Nat) (h : Heap α) (x : Nat) (hx : x ≠ r) :
    (deallocD (some r) n h).mem x = h.mem x := by
  simp [deallocD, hx]

theorem deallocD_mem_self (r n : Nat) (h : Heap α) :
    (deallocD (some r) n h).mem r = none := by
  simp [deallocD]

theorem deallocD_next (r n : Nat) (h : Heap α) : (deallocD (some r) n h).next = h.next := rfl

theorem deallocD_fuel (r n : Nat) (h : Heap α) : (deallocD (some r) n h).fuel = h.fuel := rfl

theorem deallocD_nAlloc (r n : Nat) (h : Heap α) : (deallocD (some r) n h).nAlloc = h.nAlloc := rfl

theorem deallocD_nDealloc (r n : Nat) (h : Heap α) :
    (deallocD (some r) n h).nDealloc = h.nDealloc + 1 := rfl

/-! ### Behaviour of `reserve` on well-formed vectors, for requests that do
not fall below the live count (the only way the remaining operations invoke
it). -/

/-- The heap right after a successful allocation request of `n` slots. -/
def allocHeap (n : Nat) (h : Heap α) : Heap α :=
  { next := h.next + 1,
    mem := fun r => if r = h.next then some (List.replicate n none) else h.mem r,
    fuel := h.fuel, nAlloc := h.nAlloc + 1, nDealloc := h.nDealloc }

theorem allocate_eq (n : Nat) (h : Heap α) (hf : h.fuel = none) :
    allocate n h = some (h.next, allocHeap n h) := by
  simp [allocate, allocHeap, hf]

theorem allocHeap_mem_self (n : Nat) (h : Heap α) :
    (allocHeap n h).mem h.next = some (List.replicate n none) := by
  simp [allocHeap]

theorem allocHeap_mem_ne (n : Nat) (h : Heap α) (x : Nat) (hx : x ≠ h.next) :
    (allocHeap n h).mem x = h.mem x := by
  simp [allocHeap, hx]

theorem allocHeap_next (n : Nat) (h : Heap α) : (allocHeap n h).next = h.next + 1 := rfl

theorem allocHeap_fuel (n : Nat) (h : Heap α) : (allocHeap n h).fuel = h.fuel := rfl

theorem allocHeap_nAlloc (n : Nat) (h : Heap α) : (allocHeap n h).nAlloc = h.nAlloc + 1 := rfl

theorem allocHeap_nDealloc (n : Nat) (h : Heap α) : (allocHeap n h).nDealloc = h.nDealloc := rfl

/-! ### Branch equations of `reserve` -/

theorem reserve_shrink_eq (v : vector_t α) (nc : Nat) (h : Heap α) (hlt : nc < v._size) :
    reserve v nc h = .ok ({ v with _size := v._size, _capacity := v._size }, h) := by
  simp only [reserve, if_pos hlt]

theorem reserve_noop_eq (v : vector_t α) (nc : Nat) (h : Heap α)
    (hlt : ¬ nc < v._size) (hgt : ¬ nc > v._capacity) :
    reserve v nc h = .ok (v, h) := by
  simp only [reserve, if_neg hlt, if_neg hgt]

theorem reserve_grow_eq (v : vector_t α) (nc : Nat) (h : Heap α)
    (hlt : ¬ nc < v._size) (hgt : nc > v._capacity) (hf : h.fuel = none) :
    reserve v nc h = .ok ({ v with _data := some h.next, _capacity := nc },
      deallocD v._data v._capacity
        (storeRange v._data none 0 v._size
          (copyRange v._data (some h.next) 0 v._size (allocHeap nc h)))) := by
  simp only [reserve, if_neg hlt, if_pos hgt, allocate_eq nc h hf]

/-! ### Behaviour of `reserve` on well-formed vectors, for requests that do
not fall below the live count (the only way the remaining operations invoke
it). -/

theorem reserve_spec (v : vector_t α) (h : Heap α) (vals : List α) (nc : Nat)
    (hI : VecInv v h vals) (hnc : vals.length ≤ nc) :
    ∃ v2 h2, reserve v nc h = .ok (v2, h2) ∧ VecInv v2 h2 vals ∧
      v2._size = v._size ∧ v2._capacity = max v._capacity nc ∧ Frames v h v2 h2 := by
  obtain ⟨hf, hs, hle, hd⟩ := hI
  have hlt : ¬ nc < v._size := by omega
  by_cases hgt : nc > v._capacity
  · rcases hdata : v._data with _ | r
    · -- empty vector (null buffer, capacity 0): fresh buffer, nothing to move
      rw [hdata] at hd
      have hvals : vals = [] := by
        have : vals.length = 0 := by omega
        exact List.eq_nil_of_length_eq_zero this
      have hsz0 : v._size = 0 := by omega
      refine ⟨{ v with _data := some h.next, _capacity := nc }, allocHeap nc h, ?_, ?_, ?_, ?_, ?_⟩
      · rw [reserve_grow_eq v nc h hlt hgt hf, hdata, hsz0]
        simp [copyRange, storeRange_none_eq, deallocD_none_eq]
      · refine ⟨?_, ?_, ?_, ?_⟩
        · rw [allocHeap_fuel, hf]
        · exact hs
        · simp [hvals]
        · refine ⟨by rw [allocHeap_next]; omega, ?_⟩
          rw [allocHeap_mem_self]
          simp [hvals]
      · rfl
      · simp [Nat.max_eq_right (Nat.le_of_lt hgt)]
      · refine ⟨?_, ?_, ?_, ?_⟩
        · rw [allocHeap_next]; omega
        · intro x hx hdx
          exact allocHeap_mem_ne nc h x (by omega)
        · intro rr hrr
          right
          simp at hrr
          omega
        · rw [allocHeap_fuel]
    · -- live buffer r: move to the fresh buffer, destroy and release r
      rw [hdata] at hd
      obtain ⟨hrlt, hmem⟩ := hd
      have hrne : r ≠ h.next := by omega
      have hnr : h.next ≠ r := by omega
      have hAr : (allocHeap nc h).mem r =
          some (vals.map some ++ List.replicate (v._capacity - vals.length) none) := by
        rw [allocHeap_mem_ne nc h r hrne]; exact hmem
      have hAn : (allocHeap nc h).mem h.next = some (List.replicate nc none) :=
        allocHeap_mem_self nc h
      obtain ⟨c1, c2, c3, c4, c5, c6⟩ :=
        copyRange_spec r h.next hrne v._size 0 (allocHeap nc h) _ _ hAr hAn
      have hBr : (copyRange (some r) (some h.next) 0 v._size (allocHeap nc h)).mem r =
          some (vals.map some ++ List.replicate (v._capacity - vals.length) none) :=
        (c2 r hrne).trans hAr
      obtain ⟨s1, s2, s3, s4, s5, s6⟩ :=
        storeRange_spec r none v._size 0
          (copyRange (some r) (some h.next) 0 v._size (allocHeap nc h)) _ hBr
      have hcp : copyPure (vals.map some ++ List.replicate (v._capacity - vals.length) none)
          (List.replicate nc none) 0 v._size
          = vals.map some ++ List.replicate (nc - vals.length) none := by
        have hthis := copyPure_spec vals [] nc
          (List.replicate (v._capacity - vals.length) none) hnc
        simpa [hs] using hthis
      have hCn : (storeRange (some r) none 0 v._size
          (copyRange (some r) (some h.next) 0 v._size (allocHeap nc h))).mem h.next =
          some (vals.map some ++ List.replicate (nc - vals.length) none) := by
        rw [s2 h.next hnr, c1, hcp]
      refine ⟨{ v with _data := some h.next, _capacity := nc },
        deallocD (some r) v._capacity
          (storeRange (some r) none 0 v._size
            (copyRange (some r) (some h.next) 0 v._size (allocHeap nc h))), ?_, ?_, ?_, ?_, ?_⟩
      · rw [reserve_grow_eq v nc h hlt hgt hf, hdata]
      · refine ⟨?_, ?_, ?_, ?_⟩
        · rw [deallocD_fuel, s4, c4, allocHeap_fuel, hf]
        · exact hs
        · exact le_trans hnc (le_refl nc)
        · refine ⟨?_, ?_⟩
          · rw [deallocD_next, s3, c3, allocHeap_next]; omega
          · rw [deallocD_mem_ne r v._capacity _ h.next hnr, hCn]
      · rfl
      · simp [Nat.max_eq_right (Nat.le_of_lt hgt)]
      · refine ⟨?_, ?_, ?_, ?_⟩
        · rw [deallocD_next, s3, c3, allocHeap_next]; omega
        · intro x hx hdx
          have hxr : x ≠ r := by
            intro hxe
            exact hdx (by rw [hdata, hxe])
          have hxn : x ≠ h.next := by omega
          rw [deallocD_mem_ne r v._capacity _ x hxr, s2 x hxr, c2 x hxn,
            allocHeap_mem_ne nc h x hxn]
        · intro rr hrr
          right
          simp at hrr
          omega
        · rw [deallocD_fuel, s4, c4, allocHeap_fuel]
  · refine ⟨v, h, reserve_noop_eq v nc h hlt hgt, ⟨hf, hs, hle, ?_⟩, rfl, ?_, ?_, ?_, ?_, ?_⟩
    · exact hd
    · simp [Nat.max_eq_left (Nat.le_of_not_lt hgt)]
    · exact Nat.le_refl h.next
    · intro x hx hdx; rfl
    · intro rr hrr; exact Or.inl hrr
    · rfl

theorem frames_trans (v : vector_t α) (h : Heap α) (v1 : vector_t α) (h1 : Heap α)
    (v2 : vector_t α) (h2 : Heap α)
    (F1 : Frames v h v1 h1) (F2 : Frames v1 h1 v2 h2) : Frames v h v2 h2 := by
  obtain ⟨n1, m1, r1, f1⟩ := F1
  obtain ⟨n2, m2, r2, f2⟩ := F2
  refine ⟨le_trans n1 n2, ?_, ?_, f2.trans f1⟩
  · intro x hx hdx
    have hv1x : v1._data ≠ some x := by
      intro he
      rcases r1 x he with hc | hc
      · exact hdx hc
      · omega
    exact (m2 x (lt_of_lt_of_le hx n1) hv1x).trans (m1 x hx hdx)
  · intro rr hrr
    rcases r2 rr hrr with hc | hc
    · exact r1 rr hc
    · right; omega

theorem resize_spec [Inhabited α] (v : vector_t α) (h : Heap α) (vals : List α) (ns : Nat)
    (hI : VecInv v h vals) :
    ∃ v2 h2, resize v ns h = .ok (v2, h2) ∧ VecInv v2 h2 (resizedVals vals ns) ∧
      v2._size = ns ∧ v2._capacity = max v._capacity ns ∧ Frames v h v2 h2 := by
  obtain ⟨hf, hs, hle, hd⟩ := hI
  by_cases hgrow : ns > v._size
  · -- grow path: maybe reserve, then default-construct the new suffix
    have hresv : ∃ v1 h1,
        (if ns > v._capacity then reserve v ns h else .ok (v, h)) = .ok (v1, h1) ∧
        VecInv v1 h1 vals ∧ v1._size = v._size ∧ v1._capacity = max v._capacity ns ∧
        ns ≤ v1._capacity ∧ Frames v h v1 h1 := by
      by_cases hcap : ns > v._capacity
      · obtain ⟨v1, h1, e1, i1, s1, c1, F1⟩ := reserve_spec v h vals ns ⟨hf, hs, hle, hd⟩ (by omega)
        exact ⟨v1, h1, by rw [if_pos hcap, e1], i1, s1, c1, by omega, F1⟩
      · exact ⟨v, h, by rw [if_neg hcap], ⟨hf, hs, hle, hd⟩, rfl,
          (by simp [Nat.max_eq_left (Nat.le_of_not_lt hcap)]), by omega,
          le_refl h.next, fun x hx hdx => rfl, fun rr hrr => Or.inl hrr, rfl⟩
    obtain ⟨v1, h1, e1, ⟨f1, sz1, le1, d1⟩, hsz1, hcap1, hnsle, F1⟩ := hresv
    rcases hd1 : v1._data with _ | r1
    · rw [hd1] at d1
      omega
    · rw [hd1] at d1
      obtain ⟨hr1lt, hmem1⟩ := d1
      obtain ⟨s1, s2, s3, s4, s5, s6⟩ :=
        storeRange_spec r1 (some (default : α)) (ns - v1._size) v1._size h1 _ hmem1
      have hsp : storePure (some (default : α))
          (vals.map some ++ List.replicate (v1._capacity - vals.length) none)
          v1._size (ns - v1._size)
          = (resizedVals vals ns).map some ++ List.replicate (v1._capacity - ns) none := by
        have hlenA : v1._size = (vals.map some).length := by simp [sz1, hs]
        rw [hlenA]
        rw [storePure_spec (some (default : α)) (ns - (vals.map some).length) (vals.map some)
          (List.replicate (v1._capacity - vals.length) none) (by simp; omega)]
        rw [List.drop_replicate]
        have hns : ns - v1._size = ns - vals.length := by omega
        have htk : vals.take ns = vals := List.take_of_length_le (by omega)
        have harith : v1._capacity - vals.length - (ns - vals.length) = v1._capacity - ns := by
          omega
        simp [resizedVals, hns, htk, harith, List.map_replicate]
      refine ⟨{ v1 with _size := ns },
        storeRange (some r1) (some (default : α)) v1._size (ns - v1._size) h1, ?_, ?_, ?_, ?_, ?_⟩
      · simp only [resize, if_pos hgrow, e1, hd1]
      · refine ⟨?_, ?_, ?_, ?_⟩
        · rw [s4, f1]
        · simp [resizedVals]
          omega
        · simp [resizedVals]
          omega
        · simp only [hd1]
          refine ⟨by rw [s3]; exact hr1lt, ?_⟩
          have hcapred : ({ v1 with _size := ns } : vector_t α)._capacity -
              (resizedVals vals ns).length = v1._capacity - ns := by
            simp [resizedVals]
            omega
          rw [hcapred, s1, hsp]
      · rfl
      · simpa using hcap1
      · refine frames_trans v h v1 h1 _ _ F1 ⟨?_, ?_, ?_, ?_⟩
        · rw [s3]
        · intro x hx hdx
          have hxr : x ≠ r1 := by
            intro he
            exact hdx (by rw [hd1, he])
          exact s2 x hxr
        · intro rr hrr
          exact Or.inl hrr
        · exact s4
  · -- ns ≤ _size: no construction; destroy the suffix when ns < _size
    by_cases hshrink : ns < v._size
    · rcases hdata : v._data with _ | r
      · rw [hdata] at hd
        omega
      · rw [hdata] at hd
        obtain ⟨hrlt, hmem⟩ := hd
        obtain ⟨s1, s2, s3, s4, s5, s6⟩ :=
          storeRange_spec r (none : Option α) (v._size - ns) ns h _ hmem
        have hsp : storePure (none : Option α)
            (vals.map some ++ List.replicate (v._capacity - vals.length) none) ns (v._size - ns)
            = (vals.take ns).map some ++ List.replicate (v._capacity - ns) none := by
          have hdecomp : vals.map some ++ List.replicate (v._capacity - vals.length) none =
              (vals.take ns).map some ++
                ((vals.drop ns).map some ++ List.replicate (v._capacity - vals.length) none) := by
            rw [← List.append_assoc, ← List.map_append, List.take_append_drop]
          rw [hdecomp, storePure_spec_at (none : Option α) (v._size - ns)
            ((vals.take ns).map some)
            ((vals.drop ns).map some ++ List.replicate (v._capacity - vals.length) none) ns
            (by simp; omega) (by simp; omega)]
          have hdrop : ((vals.drop ns).map some ++
              List.replicate (v._capacity - vals.length) none).drop (v._size - ns) =
              List.replicate (v._capacity - vals.length) none := by
            have hlen2 : v._size - ns = ((vals.drop ns).map some).length := by simp; omega
            rw [hlen2, List.drop_left]
          have hrep : List.replicate (v._size - ns) (none : Option α) ++
              List.replicate (v._capacity - vals.length) none =
              List.replicate (v._capacity - ns) none := by
            rw [← List.replicate_add]
            have he : v._size - ns + (v._capacity - vals.length) = v._capacity - ns := by omega
            rw [he]
          rw [hdrop, hrep]
        refine ⟨{ v with _size := ns }, storeRange (some r) none ns (v._size - ns) h,
          ?_, ?_, ?_, ?_, ?_⟩
        · simp only [resize, if_neg hgrow, if_pos hshrink, hdata]
        · refine ⟨?_, ?_, ?_, ?_⟩
          · rw [s4, hf]
          · simp [resizedVals]
            omega
          · simp [resizedVals]
            omega
          · simp only [hdata]
            refine ⟨by rw [s3]; exact hrlt, ?_⟩
            have h0 : ns - vals.length = 0 := by omega
            have h1 : resizedVals vals ns = vals.take ns := by
              simp [resizedVals, h0]
            have h2 : ({ v with _size := ns } : vector_t α)._capacity -
                (resizedVals vals ns).length = v._capacity - ns := by
              simp [h1]
              omega
            rw [h2, h1, s1, hsp]
        · rfl
        · simp [Nat.max_eq_left (by omega : ns ≤ v._capacity)]
        · refine ⟨?_, ?_, ?_, ?_⟩
          · rw [s3]
          · intro x hx hdx
            have hxr : x ≠ r := by
              intro he
              exact hdx (by rw [hdata, he])
            exact s2 x hxr
          · intro rr hrr
            exact Or.inl hrr
          · exact s4
    · -- ns = _size: only the final `_size = new_size` assignment
      have hns : ns = v._size := by omega
      refine ⟨{ v with _size := ns }, h, ?_, ?_, ?_, ?_, ?_⟩
      · simp only [resize, if_neg hgrow, if_neg hshrink]
      · refine ⟨hf, ?_, ?_, ?_⟩
        · simp [resizedVals]
          omega
        · simp [resizedVals]
          omega
        · have h0 : ns - vals.length = 0 := by omega
          have h1 : resizedVals vals ns = vals := by
            simp [resizedVals, h0, List.take_of_length_le (by omega : vals.length ≤ ns)]
          rcases hdata : v._data with _ | r
          · simp only [hdata]
            rw [hdata] at hd
            exact hd
          · simp only [hdata]
            rw [hdata] at hd
            obtain ⟨hrlt, hmem⟩ := hd
            refine ⟨hrlt, ?_⟩
            rw [hmem, h1]
      · rfl
      · simp [Nat.max_eq_left (by omega : ns ≤ v._capacity)]
      · exact ⟨le_refl h.next, fun x hx hdx => rfl, fun rr hrr => Or.inl hrr, rfl⟩

theorem set_fill_at_len (vals : List α) (x : α) (k : Nat) (hk : 1 ≤ k) :
    (vals.map some ++ List.replicate k none).set vals.length (some x)
      = (vals ++ [x]).map some ++ List.replicate (k - 1) none := by
  cases k with
  | zero => omega
  | succ k2 =>
      have h0 : vals.length = (vals.map some).length := by simp
      rw [h0, set_at_len]
      simp [List.replicate_succ]

/-- The final two lines of `emplace_back` (`construct_at(end(), …); _size++;`)
on a well-formed vector with a free slot. -/
theorem emplace_finish (v2 : vector_t α) (h2 : Heap α) (vals : List α) (x : α)
    (hI : VecInv v2 h2 vals) (hlt : vals.length < v2._capacity) :
    VecInv { v2 with _size := v2._size + 1 }
        (h2.writeSlot v2._data v2._size (some x)) (vals ++ [x]) ∧
      Frames v2 h2 { v2 with _size := v2._size + 1 }
        (h2.writeSlot v2._data v2._size (some x)) := by
  obtain ⟨f2, s2, le2, d2⟩ := hI
  rcases hd2 : v2._data with _ | r2
  · rw [hd2] at d2
    omega
  · rw [hd2] at d2
    obtain ⟨hr2, hm2⟩ := d2
    have hw : (h2.writeSlot (some r2) v2._size (some x)).mem r2 =
        some ((vals ++ [x]).map some ++
          List.replicate (v2._capacity - (vals.length + 1)) none) := by
      rw [writeSlot_mem_self, hm2, s2]
      have harith : v2._capacity - vals.length - 1 = v2._capacity - (vals.length + 1) := by
        omega
      simp only [Option.map_some']
      rw [set_fill_at_len vals x (v2._capacity - vals.length) (by omega), harith]
    constructor
    · refine ⟨?_, ?_, ?_, ?_⟩
      · rw [writeSlot_fuel]
        exact f2
      · simp [s2]
      · simp
        omega
      · refine ⟨?_, ?_⟩
        · rw [writeSlot_next]
          exact hr2
        · rw [hw]
          simp
    · refine ⟨?_, ?_, ?_, ?_⟩
      · rw [writeSlot_next]
      · intro y hy hdy
        have hyr : y ≠ r2 := by
          intro he
          exact hdy (by rw [he]; exact hd2)
        exact writeSlot_mem_ne h2 r2 v2._size (some x) y hyr
      · intro rr hrr
        exact Or.inl (hd2.trans hrr)
      · rw [writeSlot_fuel]

theorem emplace_spec (v : vector_t α) (h : Heap α) (vals : List α) (x : α)
    (hI : VecInv v h vals) :
    ∃ v2 h2, emplace_back v x h = .ok (v2, h2) ∧ VecInv v2 h2 (vals ++ [x]) ∧
      v2._size = v._size + 1 ∧ v2._capacity = specCapStep vals.length v._capacity ∧
      Frames v h v2 h2 := by
  have hf := hI.1
  have hs := hI.2.1
  have hle := hI.2.2.1
  by_cases hfull : v._size = v._capacity
  · obtain ⟨v1, h1, e1, i1, s1, c1, F1⟩ :=
      reserve_spec v h vals (2 * v._capacity) hI (by omega)
    by_cases hc10 : v1._capacity = 0
    · -- the buffer was empty: after the no-op reserve(0), reserve(16) runs
      have hle1 := i1.2.2.1
      obtain ⟨v2, h2, e2, i2, s2, c2, F2⟩ := reserve_spec v1 h1 vals 16 i1 (by omega)
      have hlen2 : vals.length < v2._capacity := by omega
      obtain ⟨iF, FF⟩ := emplace_finish v2 h2 vals x i2 hlen2
      refine ⟨{ v2 with _size := v2._size + 1 },
        h2.writeSlot v2._data v2._size (some x), ?_, iF, ?_, ?_, ?_⟩
      · simp only [emplace_back, if_pos hfull, e1, if_pos hc10, e2]
      · show v2._size + 1 = v._size + 1
        omega
      · have hcap0 : v._capacity = 0 := by omega
        simp [specCapStep, hcap0, ← hs, hfull]
        omega
      · exact frames_trans v h v2 h2 _ _ (frames_trans v h v1 h1 v2 h2 F1 F2) FF
    · -- double the capacity
      have e2 : (if v1._capacity = 0 then reserve v1 16 h1 else .ok (v1, h1)) = .ok (v1, h1) := by
        rw [if_neg hc10]
      have hcappos : 0 < v._capacity := by omega
      have hlen2 : vals.length < v1._capacity := by omega
      obtain ⟨iF, FF⟩ := emplace_finish v1 h1 vals x i1 hlen2
      refine ⟨{ v1 with _size := v1._size + 1 },
        h1.writeSlot v1._data v1._size (some x), ?_, iF, ?_, ?_, ?_⟩
      · simp only [emplace_back, if_pos hfull, e1, e2]
      · show v1._size + 1 = v._size + 1
        omega
      · have hne0 : v._capacity ≠ 0 := by omega
        simp [specCapStep, hne0, ← hs, hfull]
        omega
      · exact frames_trans v h v1 h1 _ _ F1 FF
  · -- free slot available: no growth at all
    have e1 : (if v._size = v._capacity then reserve v (2 * v._capacity) h else .ok (v, h)) =
        .ok (v, h) := by
      rw [if_neg hfull]
    have hc0 : ¬ v._capacity = 0 := by omega
    have e2 : (if v._capacity = 0 then reserve v 16 h else .ok (v, h)) = .ok (v, h) := by
      rw [if_neg hc0]
    have hlen2 : vals.length < v._capacity := by omega
    obtain ⟨iF, FF⟩ := emplace_finish v h vals x hI hlen2
    refine ⟨{ v with _size := v._size + 1 },
      h.writeSlot v._data v._size (some x), ?_, iF, rfl, ?_, FF⟩
    · simp only [emplace_back, e1, e2]
    · have hne : vals.length ≠ v._capacity := by omega
      simp [specCapStep, hne]

/-- Iterated growth schedule: capacity after `n` further insertions starting
from size `s` and capacity `c`. -/
def specCapIter (s c : Nat) : Nat → Nat
  | 0 => c
  | n + 1 => specCapIter (s + 1) (specCapStep s c) n

theorem specCapIter_succ_right (n : Nat) :
    ∀ s c, specCapIter s c (n + 1) = specCapStep (s + n) (specCapIter s c n) := by
  induction n with
  | zero => intro s c; simp [specCapIter]
  | succ n ih =>
      intro s c
      have h1 : specCapIter s c (n + 1 + 1) = specCapIter (s + 1) (specCapStep s c) (n + 1) := rfl
      have h2 : specCapIter s c (n + 1) = specCapIter (s + 1) (specCapStep s c) n := rfl
      rw [h1, ih (s + 1) (specCapStep s c), h2]
      congr 1
      omega

theorem specCapAfter_eq_iter (n : Nat) : specCapAfter n = specCapIter 0 0 n := by
  induction n with
  | zero => rfl
  | succ n ih =>
      rw [specCapAfter, specCapIter_succ_right, ih]
      simp

/-- Element reads agree with the abstract value list on every index. -/
theorem readElem_inv (v : vector_t α) (h : Heap α) (vals : List α) (hI : VecInv v h vals)
    (i : Nat) : readElem h v i = vals[i]? := by
  obtain ⟨hf, hs, hle, hd⟩ := hI
  rcases hdv : v._data with _ | r
  · rw [hdv] at hd
    have hnil : vals = [] := by
      have : vals.length = 0 := by omega
      exact List.eq_nil_of_length_eq_zero this
    simp [readElem, Heap.readSlot, hdv, hnil]
  · rw [hdv] at hd
    obtain ⟨hr, hm⟩ := hd
    have h1 : readElem h v i = h.readSlot (some r) i := by
      rw [readElem, hdv]
    rw [h1, readSlot_eq h r i _ hm]
    by_cases hi : i < vals.length
    · rw [List.getElem?_append_left (by simp; omega), List.getElem?_map]
      cases hgot : vals[i]? with
      | none =>
          rw [List.getElem?_eq_none_iff] at hgot
          omega
      | some a => rfl
    · rw [List.getElem?_append_right (by simp; omega), List.getElem?_replicate]
      have h2 : vals[i]? = none := by
        rw [List.getElem?_eq_none_iff]
        omega
      rw [h2]
      by_cases h3 : i - (vals.map some).length < v._capacity - vals.length <;> simp [h3]

theorem map_range_getElem (l : List α) :
    (List.range l.length).map (fun i => l[i]?) = l.map some := by
  apply List.ext_getElem
  · simp
  · intro j h1 h2
    simp at h1
    simp [List.getElem_map, List.getElem_range, List.getElem?_eq_getElem h1]

/-- The whole live range reads back as the abstract value list. -/
theorem readAll_inv (v : vector_t α) (h : Heap α) (vals : List α) (hI : VecInv v h vals) :
    readAll h v = vals.map some := by
  have hs := hI.2.1
  have hx : readAll h v = (List.range vals.length).map (fun i => readElem h v i) := by
    rw [readAll, hs]
  rw [hx, ← map_range_getElem vals]
  apply List.map_congr_left
  intro i hi
  exact readElem_inv v h vals hI i

theorem emplaceAll_spec (xs : List α) :
    ∀ (v : vector_t α) (h : Heap α) (vals : List α), VecInv v h vals →
      ∃ v2 h2, emplaceAll xs v h = .ok (v2, h2) ∧ VecInv v2 h2 (vals ++ xs) ∧
        v2._capacity = specCapIter vals.length v._capacity xs.length ∧
        Frames v h v2 h2 := by
  induction xs with
  | nil =>
      intro v h vals hI
      exact ⟨v, h, rfl, by simpa using hI, rfl,
        le_refl h.next, fun x hx hdx => rfl, fun rr hrr => Or.inl hrr, rfl⟩
  | cons x xs ih =>
      intro v h vals hI
      obtain ⟨v1, h1, e1, i1, s1, c1, F1⟩ := emplace_spec v h vals x hI
      obtain ⟨v2, h2, e2, i2, c2, F2⟩ := ih v1 h1 (vals ++ [x]) i1
      refine ⟨v2, h2, ?_, ?_, ?_, frames_trans v h v1 h1 v2 h2 F1 F2⟩
      · simp only [emplaceAll, e1, e2]
      · simpa using i2
      · rw [c2, c1]
        have hl : (vals ++ [x]).length = vals.length + 1 := by simp
        rw [hl]
        rfl

/-! ### Copy construction / copy assignment: the shared "allocate fresh and
copy-construct the source's live range" tail. -/

theorem copyIntoFresh_spec (other : vector_t α) (h : Heap α) (vals : List α)
    (hI : VecInv other h vals) :
    VecInv { _data := some h.next, _size := other._size, _capacity := other._capacity }
        (copyRange other._data (some h.next) 0 other._size (allocHeap other._capacity h)) vals ∧
    VecInv other
        (copyRange other._data (some h.next) 0 other._size (allocHeap other._capacity h)) vals ∧
    (∀ x, x ≠ h.next →
      (copyRange other._data (some h.next) 0 other._size (allocHeap other._capacity h)).mem x
        = h.mem x) ∧
    (copyRange other._data (some h.next) 0 other._size (allocHeap other._capacity h)).next
      = h.next + 1 ∧
    (copyRange other._data (some h.next) 0 other._size (allocHeap other._capacity h)).nAlloc
      = h.nAlloc + 1 ∧
    (copyRange other._data (some h.next) 0 other._size (allocHeap other._capacity h)).nDealloc
      = h.nDealloc := by
  obtain ⟨hf, hs, hle, hd⟩ := hI
  rcases hdo : other._data with _ | r
  · rw [hdo] at hd
    have hnil : vals = [] := by
      have : vals.length = 0 := by omega
      exact List.eq_nil_of_length_eq_zero this
    rw [hs, hnil]
    simp only [List.length_nil, copyRange]
    refine ⟨⟨?_, ?_, ?_, ?_⟩, ⟨?_, ?_, ?_, ?_⟩, ?_, ?_, ?_, ?_⟩
    · rw [allocHeap_fuel, hf]
    · simp [hs, hnil]
    · simp
    · refine ⟨by rw [allocHeap_next]; omega, ?_⟩
      rw [allocHeap_mem_self]
      simp [hnil, hd]
    · rw [allocHeap_fuel, hf]
    · simp [hs, hnil]
    · simp [hnil, hd]
    · rw [hdo]
      exact hd
    · intro x hx
      exact allocHeap_mem_ne other._capacity h x hx
    · rw [allocHeap_next]
    · rw [allocHeap_nAlloc]
    · rw [allocHeap_nDealloc]
  · rw [hdo] at hd
    obtain ⟨hr, hm⟩ := hd
    have hrne : r ≠ h.next := by omega
    have hAr : (allocHeap other._capacity h).mem r =
        some (vals.map some ++ List.replicate (other._capacity - vals.length) none) := by
      rw [allocHeap_mem_ne other._capacity h r hrne]
      exact hm
    have hAn : (allocHeap other._capacity h).mem h.next =
        some (List.replicate other._capacity none) := allocHeap_mem_self other._capacity h
    obtain ⟨c1, c2, c3, c4, c5, c6⟩ :=
      copyRange_spec r h.next hrne other._size 0 (allocHeap other._capacity h) _ _ hAr hAn
    have hcp : copyPure (vals.map some ++ List.replicate (other._capacity - vals.length) none)
        (List.replicate other._capacity none) 0 other._size
        = vals.map some ++ List.replicate (other._capacity - vals.length) none := by
      have hthis := copyPure_spec vals [] other._capacity
        (List.replicate (other._capacity - vals.length) none) hle
      simpa [hs] using hthis
    refine ⟨⟨?_, ?_, ?_, ?_⟩, ⟨?_, ?_, ?_, ?_⟩, ?_, ?_, ?_, ?_⟩
    · rw [c4, allocHeap_fuel, hf]
    · exact hs
    · exact hle
    · refine ⟨by rw [c3, allocHeap_next]; omega, ?_⟩
      rw [c1, hcp]
    · rw [c4, allocHeap_fuel, hf]
    · exact hs
    · exact hle
    · rw [hdo]
      refine ⟨by rw [c3, allocHeap_next]; omega, ?_⟩
      rw [c2 r hrne, hAr]
    · intro x hx
      rw [c2 x hx, allocHeap_mem_ne other._capacity h x hx]
    · rw [c3, allocHeap_next]
    · rw [c5, allocHeap_nAlloc]
    · rw [c6, allocHeap_nDealloc]

theorem copyCtor_eq (other : vector_t α) (h : Heap α) (hf : h.fuel = none) :
    copyCtor other h = .ok
      ({ _data := some h.next, _size := other._size, _capacity := other._capacity },
        copyRange other._data (some h.next) 0 other._size (allocHeap other._capacity h)) := by
  simp only [copyCtor, allocate_eq other._capacity h hf]

theorem copyAssign_ok_eq (self other : vector_t α) (h : Heap α) (hf : h.fuel = none) :
    copyAssign self other h = .ok
      ({ _data := some h.next, _size := other._size, _capacity := other._capacity },
        copyRange other._data (some h.next) 0 other._size (allocHeap other._capacity h)) := by
  simp only [copyAssign, allocate_eq other._capacity h hf]

theorem moveCtor_eq (other : vector_t α) (h : Heap α) (hf : h.fuel = none) :
    moveCtor other h = .ok
      (({ _data := other._data, _size := other._size, _capacity := other._capacity },
        { other with _data := none, _size := 0 }), allocHeap other._capacity h) := by
  simp only [moveCtor, allocate_eq other._capacity h hf]

theorem moveAssign_ok_eq (self other : vector_t α) (h : Heap α) (hf : h.fuel = none) :
    moveAssign self other h = .ok
      (({ _data := other._data, _size := other.size, _capacity := other._capacity },
        { other with _data := none, _size := 0 }), allocHeap other._capacity h) := by
  simp only [moveAssign, allocate_eq other._capacity h hf]

/-- Destroying a drained (moved-from) vector does nothing to the heap. -/
theorem dtor_drained (other : vector_t α) (h : Heap α) :
    dtor { other with _data := none, _size := 0 } h = h := rfl

/-- Vectors with separate (or null) buffers cannot observe each other's
element writes. -/
theorem write_indep (h : Heap α) (a b : vector_t α) (hsep : Separated a b) :
    Independent h a b := by
  intro i x j
  rcases hda : a._data with _ | ra
  · rw [writeElem, hda, writeSlot_none_eq]
  · rcases hdb : b._data with _ | rb
    · rw [readElem, readElem, hdb]
      rfl
    · have hne : rb ≠ ra := by
        rcases hsep with h1 | h1 | h1
        · rw [hda] at h1; cases h1
        · rw [hdb] at h1; cases h1
        · rw [hda, hdb] at h1
          intro he
          exact h1 (by rw [he])
      rw [readElem, readElem, hdb, writeElem, hda]
      simp [Heap.readSlot, writeSlot_mem_ne h ra i (some x) rb hne]

/-- Validation of the inlining in `reserve`'s first branch: `resize(_size)`
leaves the vector and the heap untouched. -/
theorem resize_size_self [Inhabited α] (v : vector_t α) (h : Heap α) :
    resize v v._size h = .ok (v, h) := by
  have h1 : ¬ v._size > v._size := by omega
  have h2 : ¬ v._size < v._size := by omega
  simp only [resize, if_neg h1, if_neg h2]

theorem resizedVals_length [Inhabited α] (vals : List α) (ns : Nat) :
    (resizedVals vals ns).length = ns := by
  simp [resizedVals]
  omega

theorem sep_symm (a b : vector_t α) (hs : Separated a b) : Separated b a := by
  rcases hs with h1 | h1 | h1
  · right; left; exact h1
  · left; exact h1
  · right; right; exact h1.symm

/-- A vector whose buffer is the freshly allocated region is separate from
every vector that was well formed before the allocation. -/
theorem sep_fresh (v : vector_t α) (h : Heap α) (vv : List α) (hIv : VecInv v h vv)
    (d : vector_t α) (hd : d._data = some h.next) : Separated d v := by
  rcases hv : v._data with _ | r
  · right; left; exact hv
  · right
    right
    rw [hd, hv]
    have hdd := hIv.2.2.2
    rw [hv] at hdd
    intro he
    have : h.next = r := by
      injection he
    omega

/-- Separation from a bystander survives any call whose frame is `Frames`. -/
theorem sep_frames (v w : vector_t α) (h : Heap α) (v2 : vector_t α) (h2 : Heap α)
    (wv : List α) (hIw : VecInv w h wv) (hvw : Separated v w) (F : Frames v h v2 h2) :
    Separated v2 w := by
  rcases h2d : v2._data with _ | r2
  · left; exact h2d
  · rcases hw : w._data with _ | rw2
    · right; left; exact hw
    · right
      right
      rw [h2d, hw]
      intro he
      have hr2w : r2 = rw2 := by injection he
      have hwlt : rw2 < h.next := by
        have hdd := hIw.2.2.2
        rw [hw] at hdd
        omega
      rcases F.2.2.1 r2 h2d with hc | hc
      · rcases hvw with h1 | h1 | h1
        · rw [h1] at hc
          cases hc
        · rw [hw] at h1
          cases h1
        · rw [hc, hw] at h1
          exact h1 (by rw [hr2w])
      · omega

/-! ## Claim theorems -/

/-- C7: for every sequence of N `emplace_back` calls on an initially empty
container, `size()` equals N and indexed reads return the inserted values in
insertion order; the capacity follows the stated growth schedule (16 at the
first insertion, doubling whenever an insertion finds size = capacity), so
after 17 insertions the size is 17 and the capacity is 32. -/
theorem emplace_back_sequence_spec {α : Type} (xs : List α) :
    ∃ v2 h2, emplaceAll xs (mk0 α) (initHeap α none) = .ok (v2, h2) ∧
      v2.size = xs.length ∧ readAll h2 v2 = xs.map some ∧
      v2._capacity = specCapAfter xs.length ∧
      specCapAfter 1 = 16 ∧ specCapAfter 17 = 32 := by
  have hI : VecInv (mk0 α) (initHeap α none) [] := ⟨rfl, rfl, Nat.le_refl 0, rfl⟩
  obtain ⟨v2, h2, e, i2, c2, F⟩ := emplaceAll_spec xs (mk0 α) (initHeap α none) [] hI
  refine ⟨v2, h2, e, ?_, ?_, ?_, by decide, by decide⟩
  · rw [vector_t.size, i2.2.1]
    simp
  · have hr := readAll_inv v2 h2 ([] ++ xs) i2
    simpa using hr
  · rw [c2, specCapAfter_eq_iter]
    rfl

/-- C8: `resize(N)` sets the size to N (reserving first when N exceeds the
capacity and default-constructing the new slots; destroying exactly the
removed suffix when shrinking), and a subsequent `resize(M)` with M < N
leaves exactly the first M elements of the pre-shrink contents live. -/
theorem resize_grow_shrink_spec {α : Type} [Inhabited α] (v : vector_t α) (h : Heap α)
    (vals : List α) (N M : Nat) (hI : VecInv v h vals) (hMN : M < N) :
    ∃ v1 h1 v2 h2, resize v N h = .ok (v1, h1) ∧
      v1._size = N ∧ v1._capacity = max v._capacity N ∧
      readAll h1 v1 = (resizedVals vals N).map some ∧
      resize v1 M h1 = .ok (v2, h2) ∧ v2._size = M ∧
      readAll h2 v2 = ((resizedVals vals N).take M).map some ∧
      (∀ i, M ≤ i → readElem h2 v2 i = none) := by
  obtain ⟨v1, h1, e1, i1, s1, c1, F1⟩ := resize_spec v h vals N hI
  obtain ⟨v2, h2, e2, i2, s2, c2, F2⟩ := resize_spec v1 h1 (resizedVals vals N) M i1
  have hlen1 : (resizedVals vals N).length = N := resizedVals_length vals N
  have hvals2 : resizedVals (resizedVals vals N) M = (resizedVals vals N).take M := by
    rw [resizedVals, hlen1]
    have h0 : M - N = 0 := by omega
    simp [h0]
  refine ⟨v1, h1, v2, h2, e1, s1, c1, readAll_inv v1 h1 _ i1, e2, s2, ?_, ?_⟩
  · rw [readAll_inv v2 h2 _ i2, hvals2]
  · intro i hi
    rw [hvals2] at i2
    rw [readElem_inv v2 h2 _ i2 i]
    rw [List.getElem?_eq_none_iff]
    simp
    omega

@[reducible] def c8v : vector_t Nat := { _data := some 0, _size := 2, _capacity := 4 }

@[reducible] def c8h : Heap Nat :=
  { next := 1, mem := fun r => if r = 0 then some [some 5, some 6, none, none] else none,
    fuel := none, nAlloc := 1, nDealloc := 0 }

theorem resize_grow_shrink_spec_witness :
    ∃ v1 h1 v2 h2, resize c8v 3 c8h = .ok (v1, h1) ∧
      v1._size = 3 ∧ v1._capacity = max c8v._capacity 3 ∧
      readAll h1 v1 = (resizedVals [5, 6] 3).map some ∧
      resize v1 1 h1 = .ok (v2, h2) ∧ v2._size = 1 ∧
      readAll h2 v2 = ((resizedVals [5, 6] 3).take 1).map some ∧
      (∀ i, 1 ≤ i → readElem h2 v2 i = none) :=
  resize_grow_shrink_spec c8v c8h [5, 6] 3 1 (by decide) (by decide)

/-- C10: after move construction or move assignment the source holds a null
buffer pointer and size 0, so destroying it touches nothing (no destruction,
no deallocation); its `_capacity` field is not reset and keeps the pre-move
value. -/
theorem moved_from_source_state_spec {α : Type} (v d : vector_t α) (h : Heap α)
    (hf : h.fuel = none) :
    (∃ dst s2 h2, moveCtor v h = .ok ((dst, s2), h2) ∧
      s2._data = none ∧ s2._size = 0 ∧ s2._capacity = v._capacity ∧
      dtor s2 h2 = h2 ∧ (dtor s2 h2).nDealloc = h2.nDealloc) ∧
    (∃ dst s2 h2, moveAssign d v h = .ok ((dst, s2), h2) ∧
      s2._data = none ∧ s2._size = 0 ∧ s2._capacity = v._capacity ∧
      dtor s2 h2 = h2 ∧ (dtor s2 h2).nDealloc = h2.nDealloc) := by
  constructor
  · exact ⟨_, _, _, moveCtor_eq v h hf, rfl, rfl, rfl, dtor_drained v _, by rw [dtor_drained]⟩
  · exact ⟨_, _, _, moveAssign_ok_eq d v h hf, rfl, rfl, rfl, dtor_drained v _,
      by rw [dtor_drained]⟩

theorem moved_from_source_state_spec_witness :
    (∃ dst s2 h2, moveCtor c8v c8h = .ok ((dst, s2), h2) ∧
      s2._data = none ∧ s2._size = 0 ∧ s2._capacity = c8v._capacity ∧
      dtor s2 h2 = h2 ∧ (dtor s2 h2).nDealloc = h2.nDealloc) ∧
    (∃ dst s2 h2, moveAssign (mk0 Nat) c8v c8h = .ok ((dst, s2), h2) ∧
      s2._data = none ∧ s2._size = 0 ∧ s2._capacity = c8v._capacity ∧
      dtor s2 h2 = h2 ∧ (dtor s2 h2).nDealloc = h2.nDealloc) :=
  moved_from_source_state_spec c8v (mk0 Nat) c8h rfl

/-- C9: after copy construction, copy assignment, move construction, move
assignment, `reserve`, `resize` or `emplace_back`, no non-null buffer is
referenced by two containers, and element writes through one container are
never observable through the other. -/
theorem no_region_shared_after_ops {α : Type} [Inhabited α] (v u w : vector_t α) (h : Heap α)
    (vv wv : List α) (x : α) (nc ns : Nat)
    (hIv : VecInv v h vv) (hIw : VecInv w h wv)
    (hvw : Separated v w) (hncle : vv.length ≤ nc) :
    (∃ d h2, copyCtor v h = .ok (d, h2) ∧ Separated d v ∧
      Independent h2 d v ∧ Independent h2 v d) ∧
    (∃ d s2 h2, moveCtor v h = .ok ((d, s2), h2) ∧ s2._data = none ∧ Separated d s2 ∧
      Independent h2 d s2 ∧ Independent h2 s2 d) ∧
    (∃ d h2, copyAssign u v h = .ok (d, h2) ∧ Separated d v ∧
      Independent h2 d v ∧ Independent h2 v d) ∧
    (∃ d s2 h2, moveAssign u v h = .ok ((d, s2), h2) ∧ s2._data = none ∧ Separated d s2 ∧
      Independent h2 d s2 ∧ Independent h2 s2 d) ∧
    (∃ v2 h2, reserve v nc h = .ok (v2, h2) ∧ Separated v2 w ∧
      Independent h2 v2 w ∧ Independent h2 w v2) ∧
    (∃ v2 h2, resize v ns h = .ok (v2, h2) ∧ Separated v2 w ∧
      Independent h2 v2 w ∧ Independent h2 w v2) ∧
    (∃ v2 h2, emplace_back v x h = .ok (v2, h2) ∧ Separated v2 w ∧
      Independent h2 v2 w ∧ Independent h2 w v2) := by
  have hf : h.fuel = none := hIv.1
  refine ⟨?_, ?_, ?_, ?_, ?_, ?_, ?_⟩
  · have hsep : Separated
        { _data := some h.next, _size := v._size, _capacity := v._capacity } v :=
      sep_fresh v h vv hIv _ rfl
    exact ⟨_, _, copyCtor_eq v h hf, hsep, write_indep _ _ _ hsep,
      write_indep _ _ _ (sep_symm _ _ hsep)⟩
  · have hsep : Separated
        { _data := v._data, _size := v._size, _capacity := v._capacity }
        ({ v with _data := none, _size := 0 } : vector_t α) := by
      right; left; rfl
    exact ⟨_, _, _, moveCtor_eq v h hf, rfl, hsep, write_indep _ _ _ hsep,
      write_indep _ _ _ (sep_symm _ _ hsep)⟩
  · have hsep : Separated
        { _data := some h.next, _size := v._size, _capacity := v._capacity } v :=
      sep_fresh v h vv hIv _ rfl
    exact ⟨_, _, copyAssign_ok_eq u v h hf, hsep, write_indep _ _ _ hsep,
      write_indep _ _ _ (sep_symm _ _ hsep)⟩
  · have hsep : Separated
        { _data := v._data, _size := v.size, _capacity := v._capacity }
        ({ v with _data := none, _size := 0 } : vector_t α) := by
      right; left; rfl
    exact ⟨_, _, _, moveAssign_ok_eq u v h hf, rfl, hsep, write_indep _ _ _ hsep,
      write_indep _ _ _ (sep_symm _ _ hsep)⟩
  · obtain ⟨v2, h2, e2, i2, s2, c2, F2⟩ := reserve_spec v h vv nc hIv hncle
    have hsep : Separated v2 w := sep_frames v w h v2 h2 wv hIw hvw F2
    exact ⟨v2, h2, e2, hsep, write_indep _ _ _ hsep, write_indep _ _ _ (sep_symm _ _ hsep)⟩
  · obtain ⟨v2, h2, e2, i2, s2, c2, F2⟩ := resize_spec v h vv ns hIv
    have hsep : Separated v2 w := sep_frames v w h v2 h2 wv hIw hvw F2
    exact ⟨v2, h2, e2, hsep, write_indep _ _ _ hsep, write_indep _ _ _ (sep_symm _ _ hsep)⟩
  · obtain ⟨v2, h2, e2, i2, s2, c2, F2⟩ := emplace_spec v h vv x hIv
    have hsep : Separated v2 w := sep_frames v w h v2 h2 wv hIw hvw F2
    exact ⟨v2, h2, e2, hsep, write_indep _ _ _ hsep, write_indep _ _ _ (sep_symm _ _ hsep)⟩

@[reducible] def c9v : vector_t Nat := { _data := some 0, _size := 1, _capacity := 2 }

@[reducible] def c9u : vector_t Nat := { _data := some 1, _size := 1, _capacity := 1 }

@[reducible] def c9w : vector_t Nat := { _data := some 2, _size := 1, _capacity := 1 }

@[reducible] def c9h : Heap Nat :=
  { next := 3,
    mem := fun r => if r = 0 then some [some 4, none] else
      if r = 1 then some [some 7] else if r = 2 then some [some 9] else none,
    fuel := none, nAlloc := 3, nDealloc := 0 }

theorem no_region_shared_after_ops_witness :
    (∃ d h2, copyCtor c9v c9h = .ok (d, h2) ∧ Separated d c9v ∧
      Independent h2 d c9v ∧ Independent h2 c9v d) ∧
    (∃ d s2 h2, moveCtor c9v c9h = .ok ((d, s2), h2) ∧ s2._data = none ∧ Separated d s2 ∧
      Independent h2 d s2 ∧ Independent h2 s2 d) ∧
    (∃ d h2, copyAssign c9u c9v c9h = .ok (d, h2) ∧ Separated d c9v ∧
      Independent h2 d c9v ∧ Independent h2 c9v d) ∧
    (∃ d s2 h2, moveAssign c9u c9v c9h = .ok ((d, s2), h2) ∧ s2._data = none ∧
      Separated d s2 ∧ Independent h2 d s2 ∧ Independent h2 s2 d) ∧
    (∃ v2 h2, reserve c9v 2 c9h = .ok (v2, h2) ∧ Separated v2 c9w ∧
      Independent h2 v2 c9w ∧ Independent h2 c9w v2) ∧
    (∃ v2 h2, resize c9v 2 c9h = .ok (v2, h2) ∧ Separated v2 c9w ∧
      Independent h2 v2 c9w ∧ Independent h2 c9w v2) ∧
    (∃ v2 h2, emplace_back c9v 3 c9h = .ok (v2, h2) ∧ Separated v2 c9w ∧
      Independent h2 v2 c9w ∧ Independent h2 c9w v2) :=
  no_region_shared_after_ops c9v c9u c9w c9h [4] [9] 3 2 2
    (by decide) (by decide) (by decide) (by decide)

@[reducible] def c4run : Option (vector_t Nat × Heap Nat) :=
  (emplaceAll [1, 2] (mk0 Nat) (initHeap Nat none)).toOption

/-- C4 counterexample: on a vector with size 2 and capacity 16 (built by two
`emplace_back` calls from empty), `reserve 1` is not a no-op: the capacity
field drops to 2 while the underlying 16-slot buffer is untouched. -/
theorem reserve_below_size_shrinks_capacity :
    (c4run.map (fun p => (p.1._capacity, p.1._size, p.1._data))) = some (16, 2, some 0) ∧
    ((c4run.bind (fun p => (reserve p.1 1 p.2).toOption)).map
      (fun q => (q.1._capacity, q.1._size, q.1._data))) = some (2, 2, some 0) ∧
    ((c4run.bind (fun p => (reserve p.1 1 p.2).toOption)).bind
      (fun q => (q.2.mem 0).map List.length)) = some 16 := by
  refine ⟨by decide, by decide, by decide⟩

/-- C4 amended: for `size ≤ new_capacity ≤ capacity`, `reserve` is a no-op
(vector and heap unchanged); but for `new_capacity < size` it sets the
capacity field down to the size (leaving the buffer, the size and the
elements untouched), so `reserve` does reduce the recorded capacity in that
case. -/
theorem reserve_small_request_spec {α : Type} (v : vector_t α) (h : Heap α) (nc : Nat) :
    (v._size ≤ nc → nc ≤ v._capacity → reserve v nc h = .ok (v, h)) ∧
    (nc < v._size → reserve v nc h = .ok ({ v with _capacity := v._size }, h)) := by
  constructor
  · intro h1 h2
    exact reserve_noop_eq v nc h (by omega) (by omega)
  · intro h1
    rw [reserve_shrink_eq v nc h h1]

theorem reserve_small_request_spec_witness :
    reserve c8v 3 c8h = .ok (c8v, c8h) ∧
    reserve c8v 1 c8h = .ok ({ c8v with _capacity := 2 }, c8h) :=
  ⟨(reserve_small_request_spec c8v c8h 3).1 (by decide) (by decide),
   (reserve_small_request_spec c8v c8h 1).2 (by decide)⟩

/-- C6 counterexample: the sized constructor with size 0 and copy
construction from an empty container both issue an allocation request for 0
slots and install its fresh (non-null) zero-slot region, so a capacity-0
container does not keep the null buffer. -/
theorem sized_ctor_zero_allocates :
    ((mkSized (α := Nat) 0 (initHeap Nat none)).toOption.map
      (fun p => (p.1._data, p.1._capacity, p.2.nAlloc))) = some (some 0, 0, 1) ∧
    ((copyCtor (mk0 Nat) (initHeap Nat none)).toOption.map
      (fun p => (p.1._data, p.1._capacity, p.2.nAlloc))) = some (some 0, 0, 1) := by
  refine ⟨by decide, by decide⟩

/-- C6 amended: only the default constructor yields the null buffer; the
sized constructor with size 0, copy construction from an empty container and
copy assignment from an empty container each call `allocate(0)` and adopt
the fresh zero-slot region, so those capacity-0 containers own a non-null
Region and each such operation issues one allocation. -/
theorem zero_capacity_region_spec {α : Type} [Inhabited α] (h : Heap α) (hf : h.fuel = none)
    (other self : vector_t α) (hoc : other._capacity = 0) (hos : other._size = 0) :
    (mk0 α)._data = none ∧ (mk0 α)._capacity = 0 ∧
    (∃ h2, mkSized 0 h = .ok ({ _data := some h.next, _size := 0, _capacity := 0 }, h2) ∧
      h2.nAlloc = h.nAlloc + 1) ∧
    (∃ h2, copyCtor other h = .ok ({ _data := some h.next, _size := 0, _capacity := 0 }, h2) ∧
      h2.nAlloc = h.nAlloc + 1) ∧
    (∃ h2, copyAssign self other h =
      .ok ({ _data := some h.next, _size := 0, _capacity := 0 }, h2) ∧
      h2.nAlloc = h.nAlloc + 1) := by
  refine ⟨rfl, rfl, ?_, ?_, ?_⟩
  · refine ⟨allocHeap 0 h, ?_, allocHeap_nAlloc 0 h⟩
    simp only [mkSized, allocate_eq 0 h hf, storeRange]
  · refine ⟨allocHeap 0 h, ?_, allocHeap_nAlloc 0 h⟩
    rw [copyCtor_eq other h hf, hoc, hos]
    simp only [copyRange]
  · refine ⟨allocHeap 0 h, ?_, allocHeap_nAlloc 0 h⟩
    rw [copyAssign_ok_eq self other h hf, hoc, hos]
    simp only [copyRange]

theorem zero_capacity_region_spec_witness :
    (mk0 Nat)._data = none ∧ (mk0 Nat)._capacity = 0 ∧
    (∃ h2, mkSized 0 (initHeap Nat none) =
      .ok ({ _data := some 0, _size := 0, _capacity := 0 }, h2) ∧ h2.nAlloc = 0 + 1) ∧
    (∃ h2, copyCtor (mk0 Nat) (initHeap Nat none) =
      .ok ({ _data := some 0, _size := 0, _capacity := 0 }, h2) ∧ h2.nAlloc = 0 + 1) ∧
    (∃ h2, copyAssign c8v (mk0 Nat) (initHeap Nat none) =
      .ok ({ _data := some 0, _size := 0, _capacity := 0 }, h2) ∧ h2.nAlloc = 0 + 1) :=
  zero_capacity_region_spec (initHeap Nat none) rfl (mk0 Nat) c8v rfl rfl

@[reducible] def c1run : Option ((vector_t Nat × vector_t Nat) × (vector_t Nat × Heap Nat)) :=
  (mkSized (α := Nat) 4 (initHeap Nat none)).toOption.bind (fun p =>
    (mkSized (α := Nat) 100 p.2).toOption.bind (fun q =>
      (copyAssign p.1 q.1 q.2).toOption.map (fun r => ((p.1, q.1), r))))

/-- C1: copy-assigning a 100-capacity vector over a 4-capacity destination.
The destination's original region (id 0, 4 live slots) is neither destroyed
nor released: after the assignment it is still allocated with its elements
alive, the release counter is still 0, and the destination points at a third
freshly acquired region — the prior Region leaks, contradicting the claimed
release-before-acquire behaviour. -/
theorem copy_assign_leaks_prior_region :
    (c1run.map (fun t => t.1.1._data)) = some (some 0) ∧
    (c1run.map (fun t => (t.2.1._data, t.2.1._size, t.2.1._capacity))) =
      some (some 2, 100, 100) ∧
    (c1run.bind (fun t => t.2.2.mem 0)) = some (List.replicate 4 (some 0)) ∧
    (c1run.map (fun t => (t.2.2.nAlloc, t.2.2.nDealloc))) = some (3, 0) := by
  refine ⟨by decide, by decide, by decide, by decide⟩

@[reducible] def oneElemRun : Option (vector_t Nat × Heap Nat) :=
  (emplace_back (mk0 Nat) 7 (initHeap Nat none)).toOption

/-- C2: self-assignment is not handled.  `v = v` on a vector holding the
single value 7 re-points the buffer at a fresh uninitialized region (reads
of element 0 no longer return 7) while the old region, value still alive,
is leaked; `v = std::move(v)` nulls the buffer and zeroes the size, losing
the element, again without any release. -/
theorem self_assignment_corrupts :
    (oneElemRun.map (fun p => (p.1._data, p.1._size, p.1._capacity))) =
      some (some 0, 1, 16) ∧
    (oneElemRun.map (fun p => readElem p.2 p.1 0)) = some (some 7) ∧
    ((oneElemRun.bind (fun p => (copyAssignSelf p.1 p.2).toOption)).map
      (fun q => (q.1._data, q.1._size, q.1._capacity))) = some (some 1, 1, 16) ∧
    ((oneElemRun.bind (fun p => (copyAssignSelf p.1 p.2).toOption)).map
      (fun q => readElem q.2 q.1 0)) = some none ∧
    ((oneElemRun.bind (fun p => (copyAssignSelf p.1 p.2).toOption)).bind
      (fun q => (q.2.mem 0).map (fun l => l[0]?))) = some (some (some 7)) ∧
    ((oneElemRun.bind (fun p => (copyAssignSelf p.1 p.2).toOption)).map
      (fun q => q.2.nDealloc)) = some 0 ∧
    ((oneElemRun.bind (fun p => (moveAssignSelf p.1 p.2).toOption)).map
      (fun q => (q.1._data, q.1._size, q.1._capacity))) = some (none, 0, 16) ∧
    ((oneElemRun.bind (fun p => (moveAssignSelf p.1 p.2).toOption)).map
      (fun q => q.2.nDealloc)) = some 0 := by
  refine ⟨by decide, by decide, by decide, by decide, by decide, by decide, by decide, by decide⟩

@[reducible] def c3assign :
    Option ((vector_t Nat × vector_t Nat) × ((vector_t Nat × vector_t Nat) × Heap Nat)) :=
  oneElemRun.bind (fun p =>
    (mkSized (α := Nat) 2 p.2).toOption.bind (fun q =>
      (moveAssign q.1 p.1 q.2).toOption.map (fun r => ((q.1, p.1), r))))

/-- C3: move construction allocates a buffer (the allocation counter
increments and the 16-slot region id 1 is left allocated but unreferenced),
contradicting "no new allocation"; move assignment likewise allocates, and
never releases the destination's previously owned region (id 1, its two
live values still in memory, release counter 0). -/
theorem move_ops_allocate_and_leak :
    ((oneElemRun.bind (fun p => (moveCtor p.1 p.2).toOption)).map
      (fun q => (q.1.1._data, q.1.2._data, q.1.2._size))) = some (some 0, none, 0) ∧
    ((oneElemRun.bind (fun p => (moveCtor p.1 p.2).toOption)).map
      (fun q => (q.2.nAlloc, q.2.nDealloc))) = some (2, 0) ∧
    ((oneElemRun.bind (fun p => (moveCtor p.1 p.2).toOption)).bind
      (fun q => (q.2.mem 1).map List.length)) = some 16 ∧
    (c3assign.map (fun t => (t.1.1._data, t.2.1.1._data, t.2.1.2._data))) =
      some (some 1, some 0, none) ∧
    (c3assign.bind (fun t => t.2.2.mem 1)) = some [some 0, some 0] ∧
    (c3assign.map (fun t => (t.2.2.nAlloc, t.2.2.nDealloc))) = some (3, 0) := by
  refine ⟨by decide, by decide, by decide, by decide, by decide, by decide⟩

@[reducible] def c5h : Heap Nat :=
  { next := 2,
    mem := fun r => if r = 0 then some [some 5]
      else if r = 1 then some [some 8, some 9] else none,
    fuel := some 0, nAlloc := 2, nDealloc := 0 }

@[reducible] def c5d : vector_t Nat := { _data := some 0, _size := 1, _capacity := 1 }

@[reducible] def c5s : vector_t Nat := { _data := some 1, _size := 2, _capacity := 2 }

/-- C5: with an allocator whose next request fails, a growing `reserve`
propagates the failure with the vector exactly as before (the claim holds
there), but a failing copy assignment escapes only after `_size` and
`_capacity` were already overwritten with the source's values: the
destination is left partially mutated (size 2/capacity 2 over a 1-slot
buffer), contradicting the no-partial-mutation requirement. -/
theorem copy_assign_partial_mutation_on_alloc_failure :
    reserve c5d 5 c5h = .error (c5d, c5h) ∧
    copyAssign c5d c5s c5h = .error ({ c5d with _size := 2, _capacity := 2 }, c5h) ∧
    ({ c5d with _size := 2, _capacity := 2 } : vector_t Nat)._size ≠ c5d._size ∧
    ({ c5d with _size := 2, _capacity := 2 } : vector_t Nat)._capacity ≠ c5d._capacity := by
  refine ⟨rfl, rfl, by decide, by decide⟩
